import Mathlib

/-!
Verification of the EEGRater EDF core (src/backend/edf_parser.py).

The development shallowly embeds the decoder `read_edf`, the snippet
segmentation `_extract_snippets_from_edf`, the per-file cache
`process_edf_file` and the directory aggregation `get_all_snippets`.

Modelling conventions:
- Python floats are modelled exactly as rationals (ℚ); the wide,
  non-wrapping arithmetic domain of float64 is what matters for the
  claims, not its rounding.
- Python exceptions are modelled by `Except PyError`; the implicit
  exceptions Python raises (ZeroDivisionError from `x / 0`, ValueError
  from numpy broadcast or odd buffers, IndexError from list indexing,
  json.JSONDecodeError from a corrupt cache file) each get a
  constructor.
- The fixed-width ASCII header fields are taken as already parsed into
  an `EDFHeader` record (their numeric values); the sample data section
  is modelled at byte level, as the source reads it.
- numpy arrays are modelled as an `NpArray2` record carrying the shape
  and a total entry function; numpy slice-assignment semantics
  (clipping, length check, length-one broadcast) are reproduced.
-/

/-- Python runtime exceptions relevant to the embedded code. -/
inductive PyError
  | zeroDivision
  | valueError
  | indexError
  | jsonDecode
deriving DecidableEq, Repr

/-- Decode one little-endian signed 16-bit sample from two bytes,
as `np.frombuffer(raw, dtype=np.int16)` does pairwise. -/
def int16OfPair (lo hi : Nat) : ℤ :=
  let u : Nat := (lo % 256) + 256 * (hi % 256)
  if u < 32768 then (u : ℤ) else (u : ℤ) - 65536

/-- The signed 16-bit value stored at byte position `pos` (little-endian). -/
def int16At (db : List Nat) (pos : Nat) : ℤ :=
  int16OfPair (db.getD pos 0) (db.getD (pos + 1) 0)

/-- All consecutive byte pairs of `l` decoded as int16, the content of
`np.frombuffer(l, dtype=np.int16)` for an even-length buffer. -/
def bytesToInt16s (l : List Nat) : List ℤ :=
  (List.range (l.length / 2)).map fun k => int16OfPair (l.getD (2 * k) 0) (l.getD (2 * k + 1) 0)

/-- Model of `np.frombuffer(raw, dtype=np.int16)`: a buffer whose byte
length is not a multiple of the two-byte item size raises ValueError. -/
def frombufferInt16 (l : List Nat) : Except PyError (List ℤ) :=
  if l.length % 2 = 0 then Except.ok (bytesToInt16s l) else Except.error PyError.valueError

/-- A two-dimensional numpy float array: explicit shape plus a total
entry function (reads outside the shape never occur in the embedded code). -/
structure NpArray2 where
  rows : Nat
  cols : Nat
  entry : Nat → Nat → ℚ

/-- Model of `np.zeros((rows, cols))`. -/
def npZeros (rows cols : Nat) : NpArray2 :=
  ⟨rows, cols, fun _ _ => 0⟩

/-- Model of the numpy slice assignment `m[ch, a:b] = v` with nonnegative
slice bounds: the slice is clipped to the column count; the assignment
succeeds when `v` matches the clipped length exactly or broadcasts from
length one, and raises ValueError otherwise; a row index out of range
raises IndexError. -/
def npSetRowSlice (m : NpArray2) (ch a b : Nat) (v : List ℚ) : Except PyError NpArray2 :=
  if m.rows ≤ ch then Except.error PyError.indexError
  else
    let a' := min a m.cols
    let b' := min b m.cols
    if v.length = b' - a' then
      Except.ok ⟨m.rows, m.cols, fun c j =>
        if c = ch ∧ a' ≤ j ∧ j < b' then v.getD (j - a') 0 else m.entry c j⟩
    else if v.length = 1 then
      Except.ok ⟨m.rows, m.cols, fun c j =>
        if c = ch ∧ a' ≤ j ∧ j < b' then v.getD 0 0 else m.entry c j⟩
    else Except.error PyError.valueError

/-- Normalise one Python slice index against width `W`: negative indices
count from the end, indices past the end are clipped. -/
def normSliceIdx (W : Nat) (i : ℤ) : Nat :=
  if i < 0 then ((W : ℤ) + i).toNat else min i.toNat W

/-- Model of the numpy column slice `m[:, a:b]` with Python slice
index semantics. -/
def npSliceCols (m : NpArray2) (a b : ℤ) : NpArray2 :=
  let a' := normSliceIdx m.cols a
  let b' := normSliceIdx m.cols b
  ⟨m.rows, b' - a', fun c j => m.entry c (a' + j)⟩

/-- Model of `ndarray.tolist()` for a two-dimensional array. -/
def npToList (m : NpArray2) : List (List ℚ) :=
  (List.range m.rows).map fun c => (List.range m.cols).map fun j => m.entry c j

/-- The numeric content of the fixed-width ASCII EDF header, as
`read_edf` extracts it field by field (src/backend/edf_parser.py lines
21-98): global fields followed by the per-channel arrays, each of
length `nChannels` in a well-formed header. -/
structure EDFHeader where
  headerSize : Nat
  nRecords : Nat
  recordDuration : ℚ
  nChannels : Nat
  channelNames : List String
  physicalMin : List ℚ
  physicalMax : List ℚ
  digitalMin : List ℤ
  digitalMax : List ℤ
  samplesPerRecord : List Nat
deriving DecidableEq, Repr

/-- Well-formedness of a parsed header: every per-channel array has
exactly `nChannels` entries, as the byte layout guarantees. -/
def EDFHeader.WF (h : EDFHeader) : Prop :=
  h.channelNames.length = h.nChannels ∧
  h.physicalMin.length = h.nChannels ∧
  h.physicalMax.length = h.nChannels ∧
  h.digitalMin.length = h.nChannels ∧
  h.digitalMax.length = h.nChannels ∧
  h.samplesPerRecord.length = h.nChannels

instance (h : EDFHeader) : Decidable h.WF := by
  unfold EDFHeader.WF; infer_instance

/-- Channel accessor: `physical_min[ch]`. -/
def EDFHeader.pmin (h : EDFHeader) (ch : Nat) : ℚ := h.physicalMin.getD ch 0

/-- Channel accessor: `physical_max[ch]`. -/
def EDFHeader.pmax (h : EDFHeader) (ch : Nat) : ℚ := h.physicalMax.getD ch 0

/-- Channel accessor: `digital_min[ch]`. -/
def EDFHeader.dmin (h : EDFHeader) (ch : Nat) : ℤ := h.digitalMin.getD ch 0

/-- Channel accessor: `digital_max[ch]`. -/
def EDFHeader.dmax (h : EDFHeader) (ch : Nat) : ℤ := h.digitalMax.getD ch 0

/-- Channel accessor: `samples_per_record[ch]`. -/
def EDFHeader.spr (h : EDFHeader) (ch : Nat) : Nat := h.samplesPerRecord.getD ch 0

/-- The in-memory recording returned by `read_edf` (the dict built at
src/backend/edf_parser.py lines 133-140). -/
structure Recording where
  channel_names : List String
  data : NpArray2
  sampling_rate : ℚ
  duration : ℚ
  n_records : Nat
  record_duration : ℚ

/-- State threaded through the record/channel read loop: the current
file position within the data section and the sample matrix. -/
structure LoopSt where
  offset : Nat
  mat : NpArray2

/-- Body of the inner loop of `read_edf` (lines 112-125) for one
`(rec, ch)` block: read `samples_per_record[ch] * 2` bytes, decode them
as int16, compute the scale factor (Python raises ZeroDivisionError when
`digital_max[ch] - digital_min[ch]` is zero), rescale to physical units
in the wide float domain, and store into `data[ch, rec*n : rec*n + n]`. -/
def readBlock (hdr : EDFHeader) (dataBytes : List Nat) (rc ch : Nat) (st : LoopSt) :
    Except PyError LoopSt :=
  match frombufferInt16 ((dataBytes.drop st.offset).take (hdr.spr ch * 2)) with
  | Except.error e => Except.error e
  | Except.ok digitalValues =>
    if hdr.dmax ch - hdr.dmin ch = 0 then Except.error PyError.zeroDivision
    else
      match npSetRowSlice st.mat ch (rc * hdr.spr ch) (rc * hdr.spr ch + hdr.spr ch)
          (digitalValues.map fun d : ℤ =>
            ((d : ℚ) - (hdr.dmin ch : ℚ)) *
              ((hdr.pmax ch - hdr.pmin ch) / ((hdr.dmax ch : ℚ) - (hdr.dmin ch : ℚ))) +
              hdr.pmin ch) with
      | Except.error e => Except.error e
      | Except.ok mat' =>
        Except.ok ⟨st.offset + ((dataBytes.drop st.offset).take (hdr.spr ch * 2)).length, mat'⟩

/-- The inner `for ch in range(n_channels)` loop, starting at channel
`ch` with `k` channels left to process. -/
def readChansAux (hdr : EDFHeader) (dataBytes : List Nat) (rc : Nat) :
    Nat → Nat → LoopSt → Except PyError LoopSt
  | 0, _, st => Except.ok st
  | k + 1, ch, st => readBlock hdr dataBytes rc ch st >>= readChansAux hdr dataBytes rc k (ch + 1)

/-- The outer `for rec in range(n_records)` loop, starting at record
`rc` with `k` records left to process. -/
def readRecsAux (hdr : EDFHeader) (dataBytes : List Nat) :
    Nat → Nat → LoopSt → Except PyError LoopSt
  | 0, _, st => Except.ok st
  | k + 1, rc, st =>
    readChansAux hdr dataBytes rc hdr.nChannels 0 st >>= readRecsAux hdr dataBytes k (rc + 1)

/-- Embedding of `read_edf` (src/backend/edf_parser.py lines 14-140)
from the seek to the data section onward, the header fields being given
already parsed. `samples_per_record[0]` on an empty list is Python
IndexError; the division `samples_per_record[0] / record_duration`
raises ZeroDivisionError when the record duration is zero. -/
def read_edf (hdr : EDFHeader) (fileBytes : List Nat) : Except PyError Recording := do
  let dataBytes := fileBytes.drop hdr.headerSize
  match hdr.samplesPerRecord with
  | [] => Except.error PyError.indexError
  | s0 :: _ => do
    let totalSamples := hdr.nRecords * s0
    let stF ← readRecsAux hdr dataBytes hdr.nRecords 0 ⟨0, npZeros hdr.nChannels totalSamples⟩
    if hdr.recordDuration = 0 then Except.error PyError.zeroDivision
    else
      pure ⟨hdr.channelNames, stF.mat, (s0 : ℚ) / hdr.recordDuration,
            (hdr.nRecords : ℚ) * hdr.recordDuration, hdr.nRecords, hdr.recordDuration⟩

/-- The physical value the source computes for sample index `k` of the
block read at byte offset `off` for channel `ch`: the raw int16 widened
to the float domain, shifted by `digital_min`, scaled, and shifted by
`physical_min` (lines 120-121). -/
def blockVal (hdr : EDFHeader) (db : List Nat) (off ch k : Nat) : ℚ :=
  ((int16At db (off + 2 * k) : ℚ) - (hdr.dmin ch : ℚ)) *
    ((hdr.pmax ch - hdr.pmin ch) / ((hdr.dmax ch : ℚ) - (hdr.dmin ch : ℚ))) + hdr.pmin ch

/-- Python `int()` truncation toward zero of a float, used for the
sample-index computations in the segmenter. -/
def pyInt (q : ℚ) : ℤ :=
  if q < 0 then ⌈q⌉ else ⌊q⌋

/-- The `{i:04d}` format: decimal digits left-padded with zeros to a
minimum width of four. -/
def pad4 (i : Nat) : String :=
  let s := toString i
  if 4 ≤ s.length then s else String.mk (List.replicate (4 - s.length) '0') ++ s

/-- One snippet dict as built at src/backend/edf_parser.py lines
187-196, with the sample slice already converted to nested lists. -/
structure Snippet where
  id : String
  channels : List String
  data : List (List ℚ)
  sampling_rate : ℚ
  duration : ℚ
  source_file : String
  start_time : ℚ
  end_time : ℚ
deriving DecidableEq, Repr

/-- The snippet built for window index `i` of a decoded recording
(lines 172-196): times `i*10` and `i*10+10`, sample bounds truncated
with Python `int()`, the column slice of the matrix, and the identifier
`stem_snippet_{i:04d}`. -/
def mkSnippet (stem nm : String) (r : Recording) (i : Nat) : Snippet :=
  let startTime : Nat := i * 10
  let endTime : Nat := startTime + 10
  let startSample : ℤ := pyInt ((startTime : ℚ) * r.sampling_rate)
  let endSample : ℤ := pyInt ((endTime : ℚ) * r.sampling_rate)
  { id := stem ++ "_snippet_" ++ pad4 i
    channels := r.channel_names
    data := npToList (npSliceCols r.data startSample endSample)
    sampling_rate := r.sampling_rate
    duration := 10
    source_file := nm
    start_time := (startTime : ℚ)
    end_time := (endTime : ℚ) }

/-- The segmentation loop over a successfully decoded recording:
`n_snippets = int(duration // 10)` complete windows (Python float
floor-division; a negative count yields an empty range). -/
def extractSnippetsOk (stem nm : String) (r : Recording) : List Snippet :=
  (List.range (⌊r.duration / 10⌋).toNat).map (mkSnippet stem nm r)

/-- Embedding of `_extract_snippets_from_edf` (lines 156-202): decode
the file, segment into complete 10-second windows; any exception is
caught and an empty list returned. -/
def _extract_snippets_from_edf (hdr : EDFHeader) (fileBytes : List Nat)
    (stem nm : String) : List Snippet :=
  match read_edf hdr fileBytes with
  | Except.error _ => []
  | Except.ok r => extractSnippetsOk stem nm r

/-- One EDF file of the input directory: its filename, stem, and the
parsed header plus raw bytes `read_edf` would see. -/
structure EdfFile where
  nm : String
  stem : String
  hdr : EDFHeader
  bytes : List Nat
deriving DecidableEq

/-- Content of an on-disk cache file: either a JSON document that
deserializes to a snippet list, or corrupt data on which `json.load`
raises. -/
inductive CacheFile
  | valid (snips : List Snippet)
  | corrupt
deriving DecidableEq

/-- Filesystem write operations recorded by the cache layer, used to
state the persistence claims. -/
inductive FsOp
  | openWrite (path : String)
  | writeJson (path : String) (snips : List Snippet)
  | replace (src dst : String)
deriving DecidableEq

/-- Observable state of one `EDFParser` instance together with its cache
directory: the on-disk cache entries keyed by cache path, the in-memory
`_snippets_cache`, a count of `read_edf` invocations (the decode probe
the spec mentions), and the trace of write operations performed. -/
structure ParserState where
  diskCache : List (String × CacheFile)
  memoCache : Option (List Snippet)
  decodeCount : Nat
  ops : List FsOp
deriving DecidableEq

/-- The parser state at construction time: empty caches, nothing
decoded, nothing written. -/
def initState : ParserState :=
  ⟨[], none, 0, []⟩

/-- Embedding of `_get_cache_path` (lines 151-154):
`{cache_directory}/{stem}_{md5(path)[:8]}_snippets.json`. The md5-prefix
step is abstracted as a function `hash8` of the path string. -/
def _get_cache_path (hash8 : String → String) (cacheDir edfDir : String) (f : EdfFile) : String :=
  cacheDir ++ "/" ++ f.stem ++ "_" ++ hash8 (edfDir ++ "/" ++ f.nm) ++ "_snippets.json"

/-- The cache write at lines 218-219: `open(cache_path, "w")` followed by
`json.dump(snippets, f)` — a direct write at the final cache path,
recorded in the operation trace. -/
def writeCache (st : ParserState) (path : String) (snips : List Snippet) : ParserState :=
  { st with
    diskCache := (path, CacheFile.valid snips) :: st.diskCache.filter fun kv => kv.1 ≠ path
    ops := st.ops ++ [FsOp.openWrite path, FsOp.writeJson path snips] }

/-- Embedding of `process_edf_file` (lines 204-221): on a hit (cache file
exists and not force_reprocess) return `json.load` of the entry — a
corrupt entry raises; on a miss run the extractor (counted as one
decode) and write the cache only when the snippet list is nonempty. -/
def process_edf_file (hash8 : String → String) (cacheDir edfDir : String)
    (f : EdfFile) (force : Bool) (st : ParserState) :
    Except PyError (List Snippet) × ParserState :=
  let cachePath := _get_cache_path hash8 cacheDir edfDir f
  match st.diskCache.lookup cachePath, force with
  | some (CacheFile.valid snips), false => (Except.ok snips, st)
  | some CacheFile.corrupt, false => (Except.error PyError.jsonDecode, st)
  | _, _ =>
    let snips := _extract_snippets_from_edf f.hdr f.bytes f.stem f.nm
    let st' := { st with decodeCount := st.decodeCount + 1 }
    if snips = [] then (Except.ok snips, st')
    else (Except.ok snips, writeCache st' cachePath snips)

/-- Case-sensitive suffix test over the character content of a string,
the semantics of matching a filename against the glob pattern
`*.edf`. -/
def strEndsWith (s suffix : String) : Bool :=
  suffix.data.isSuffixOf s.data

/-- The file enumeration at line 231:
`list(set(glob("*.edf")) | set(glob("*.EDF")))`. POSIX glob matching is
case-sensitive, so exactly the two spellings `.edf` and `.EDF` are
matched; the set union de-duplicates by path equality (the resulting
iteration order is unspecified in Python; one fixed order is used
here, and no claim depends on the order). -/
def edfGlobFiles (files : List EdfFile) : List EdfFile :=
  let lower := files.filter fun f => strEndsWith f.nm ".edf"
  let upper := files.filter fun f => strEndsWith f.nm ".EDF"
  lower ++ upper.filter fun f => ¬ lower.contains f

/-- The per-file loop of `get_all_snippets` (lines 233-235): process
each enumerated file in order and concatenate; an exception raised by
`process_edf_file` propagates, state changes made so far persisting. -/
def processAll (hash8 : String → String) (cacheDir edfDir : String) :
    List EdfFile → Bool → ParserState → Except PyError (List Snippet) × ParserState
  | [], _, st => (Except.ok [], st)
  | f :: rest, force, st =>
    match process_edf_file hash8 cacheDir edfDir f force st with
    | (Except.error e, st') => (Except.error e, st')
    | (Except.ok snips, st') =>
      match processAll hash8 cacheDir edfDir rest force st' with
      | (Except.ok acc, st'') => (Except.ok (snips ++ acc), st'')
      | (Except.error e, st'') => (Except.error e, st'')

/-- Embedding of `get_all_snippets` (lines 223-238): return the
in-memory aggregation when present and not force_reprocess; otherwise
enumerate, process every file, memoise and return the concatenation. -/
def get_all_snippets (hash8 : String → String) (cacheDir edfDir : String)
    (files : List EdfFile) (force : Bool) (st : ParserState) :
    Except PyError (List Snippet) × ParserState :=
  match st.memoCache, force with
  | some snips, false => (Except.ok snips, st)
  | _, _ =>
    match processAll hash8 cacheDir edfDir (edfGlobFiles files) force st with
    | (Except.ok allSnips, st') => (Except.ok allSnips, { st' with memoCache := some allSnips })
    | (Except.error e, st') => (Except.error e, st')

/-- Does the operation write file content at path `p`? -/
def opWritesTo (p : String) : FsOp → Bool
  | FsOp.openWrite q => q == p
  | FsOp.writeJson q _ => q == p
  | FsOp.replace _ _ => false

/-- Modelled from the spec (§4.3): an atomic persist of a cache entry
writes only to locations other than the final path and makes the entry
appear through a final rename/replace onto the final path, so that a
partially written entry is never visible there. This is the spec-side
definition the code trace is compared against. -/
def specAtomicPersist (finalPath : String) (ops : List FsOp) : Bool :=
  (ops.all fun op => ! opWritesTo finalPath op) &&
    (match ops.getLast? with
     | some (FsOp.replace _ dst) => dst == finalPath
     | _ => false)

/-- A recording value used only as the default of `Option.getD` when
naming the result of a decode already proved successful. -/
def defaultRecording : Recording :=
  ⟨[], npZeros 0 0, 0, 0, 0, 0⟩

/-- The recording a successful decode produced, extracted from the
`Except` value. -/
def decodeOf (hdr : EDFHeader) (fileBytes : List Nat) : Recording :=
  (read_edf hdr fileBytes).toOption.getD defaultRecording

/-- Boolean success test on a decode result. -/
def exOk (e : Except PyError Recording) : Bool :=
  match e with
  | Except.ok _ => true
  | Except.error _ => false

lemma exBind_ok {α β : Type} (a : α) (f : α → Except PyError β) :
    (Except.ok a >>= f) = f a := rfl

lemma exBind_err {α β : Type} (e : PyError) (f : α → Except PyError β) :
    ((Except.error e : Except PyError α) >>= f) = Except.error e := rfl

lemma getD_map_range {α : Type} (f : Nat → α) (n k : Nat) (d : α) (hk : k < n) :
    ((List.range n).map f).getD k d = f k := by
  rw [List.getD_eq_getElem?_getD, List.getElem?_map, List.getElem?_range hk]
  rfl

lemma bytesToInt16s_length (l : List Nat) : (bytesToInt16s l).length = l.length / 2 := by
  simp [bytesToInt16s]

lemma bytesToInt16s_getD (l : List Nat) (k : Nat) (hk : k < l.length / 2) :
    (bytesToInt16s l).getD k 0 = int16OfPair (l.getD (2 * k) 0) (l.getD (2 * k + 1) 0) := by
  unfold bytesToInt16s
  exact getD_map_range _ _ _ _ hk

lemma getD_take_drop (l : List Nat) (off n i : Nat) (hi : i < n) (_hlen : off + n ≤ l.length) :
    ((l.drop off).take n).getD i 0 = l.getD (off + i) 0 := by
  rw [List.getD_eq_getElem?_getD, List.getD_eq_getElem?_getD]
  rw [List.getElem?_take, if_pos hi, List.getElem?_drop]

lemma getD_map_lt (f : ℤ → ℚ) (l : List ℤ) (k : Nat) (hk : k < l.length) :
    (l.map f).getD k 0 = f (l.getD k 0) := by
  rw [List.getD_eq_getElem?_getD, List.getD_eq_getElem?_getD, List.getElem?_map,
    List.getElem?_eq_getElem hk]
  rfl

lemma readBlock_ok (hdr : EDFHeader) (db : List Nat) (rc ch S W : Nat) (st : LoopSt)
    (hrows : st.mat.rows = hdr.nChannels) (hcols : st.mat.cols = W)
    (hch : ch < hdr.nChannels)
    (hS : hdr.spr ch = S)
    (hnd : hdr.dmax ch - hdr.dmin ch ≠ 0)
    (hbytes : st.offset + 2 * S ≤ db.length)
    (hslice : rc * S + S ≤ W) :
    ∃ mat' : NpArray2,
      readBlock hdr db rc ch st = Except.ok ⟨st.offset + 2 * S, mat'⟩ ∧
      mat'.rows = hdr.nChannels ∧ mat'.cols = W ∧
      ∀ c j, mat'.entry c j =
        if c = ch ∧ rc * S ≤ j ∧ j < rc * S + S
        then blockVal hdr db st.offset ch (j - rc * S)
        else st.mat.entry c j := by
  have hlendb : st.offset + S * 2 ≤ db.length := by omega
  have hrawlen : ((db.drop st.offset).take (S * 2)).length = S * 2 := by
    simp only [List.length_take, List.length_drop]
    omega
  have hfb : frombufferInt16 ((db.drop st.offset).take (S * 2)) =
      Except.ok (bytesToInt16s ((db.drop st.offset).take (S * 2))) := by
    unfold frombufferInt16
    rw [hrawlen]
    simp
  have hdvlen : (bytesToInt16s ((db.drop st.offset).take (S * 2))).length = S := by
    rw [bytesToInt16s_length, hrawlen]
    omega
  have hrowchk : ¬ st.mat.rows ≤ ch := by omega
  have hmin1 : min (rc * S) st.mat.cols = rc * S := by omega
  have hmin2 : min (rc * S + S) st.mat.cols = rc * S + S := by omega
  have hvlen : ((bytesToInt16s ((db.drop st.offset).take (S * 2))).map fun d : ℤ =>
      ((d : ℚ) - (hdr.dmin ch : ℚ)) *
        ((hdr.pmax ch - hdr.pmin ch) / ((hdr.dmax ch : ℚ) - (hdr.dmin ch : ℚ))) +
        hdr.pmin ch).length = S := by
    rw [List.length_map, hdvlen]
  unfold readBlock
  rw [hS, hfb]
  dsimp only
  rw [if_neg hnd]
  unfold npSetRowSlice
  rw [if_neg hrowchk]
  simp only [hmin1, hmin2, hvlen]
  rw [if_pos (by omega : S = rc * S + S - rc * S)]
  dsimp only
  refine ⟨⟨st.mat.rows, st.mat.cols, fun c j =>
      if c = ch ∧ rc * S ≤ j ∧ j < rc * S + S then
        ((bytesToInt16s ((db.drop st.offset).take (S * 2))).map fun d : ℤ =>
          ((d : ℚ) - (hdr.dmin ch : ℚ)) *
            ((hdr.pmax ch - hdr.pmin ch) / ((hdr.dmax ch : ℚ) - (hdr.dmin ch : ℚ))) +
            hdr.pmin ch).getD (j - rc * S) 0
      else st.mat.entry c j⟩, ?_, hrows, hcols, ?_⟩
  · rw [hrawlen]
    have h2 : st.offset + S * 2 = st.offset + 2 * S := by omega
    rw [h2]
  · intro c j
    dsimp only
    by_cases hcj : c = ch ∧ rc * S ≤ j ∧ j < rc * S + S
    · rw [if_pos hcj, if_pos hcj]
      obtain ⟨hc, hj1, hj2⟩ := hcj
      have hk : j - rc * S < S := by omega
      rw [getD_map_lt _ _ _ (by rw [hdvlen]; exact hk)]
      rw [bytesToInt16s_getD _ _ (by rw [hrawlen]; omega)]
      rw [getD_take_drop _ _ _ _ (by omega) hlendb]
      rw [getD_take_drop _ _ _ _ (by omega) hlendb]
      unfold blockVal int16At
      have h1 : st.offset + 2 * (j - rc * S) + 1 = st.offset + (2 * (j - rc * S) + 1) := by omega
      rw [h1]
    · rw [if_neg hcj, if_neg hcj]

/-- Byte offset of the data block for record `rc`, channel `c`, when all
channels declare `S` samples per record: blocks are read sequentially,
record-major then channel-minor. -/
def blockOff (N S rc c : Nat) : Nat := 2 * S * (N * rc) + 2 * S * c

/-- The physical value the decoder stores at matrix position `(c, j)`
under the uniform-rate layout: sample `j % S` of the block of record
`j / S` for channel `c`. -/
def decodedVal (hdr : EDFHeader) (db : List Nat) (S c j : Nat) : ℚ :=
  blockVal hdr db (blockOff hdr.nChannels S (j / S) c) c (j % S)

lemma readChans_ok (hdr : EDFHeader) (db : List Nat) (rc S W : Nat)
    (hU : ∀ c, c < hdr.nChannels → hdr.spr c = S)
    (hND : ∀ c, c < hdr.nChannels → hdr.dmax c - hdr.dmin c ≠ 0)
    (hslice : rc * S + S ≤ W) :
    ∀ k ch st, ch + k = hdr.nChannels →
      st.mat.rows = hdr.nChannels → st.mat.cols = W →
      st.offset + 2 * S * k ≤ db.length →
      ∃ st' : LoopSt,
        readChansAux hdr db rc k ch st = Except.ok st' ∧
        st'.offset = st.offset + 2 * S * k ∧
        st'.mat.rows = hdr.nChannels ∧ st'.mat.cols = W ∧
        ∀ c j, st'.mat.entry c j =
          if ch ≤ c ∧ c < hdr.nChannels ∧ rc * S ≤ j ∧ j < rc * S + S
          then blockVal hdr db (st.offset + 2 * S * (c - ch)) c (j - rc * S)
          else st.mat.entry c j := by
  intro k
  induction k with
  | zero =>
    intro ch st hche hrows hcols _hbytes
    refine ⟨st, rfl, by omega, hrows, hcols, ?_⟩
    intro c j
    rw [if_neg (by omega)]
  | succ k ih =>
    intro ch st hche hrows hcols hbytes
    have hlin : 2 * S * (k + 1) = 2 * S * k + 2 * S := by ring
    obtain ⟨mat1, hblock, hrows1, hcols1, hent1⟩ :=
      readBlock_ok hdr db rc ch S W st hrows hcols (by omega) (hU ch (by omega))
        (hND ch (by omega)) (by omega) hslice
    obtain ⟨st', hloop, hoff', hrows', hcols', hent'⟩ :=
      ih (ch + 1) ⟨st.offset + 2 * S, mat1⟩ (by omega) hrows1 hcols1 (by dsimp only; omega)
    refine ⟨st', ?_, ?_, hrows', hcols', ?_⟩
    · show (readBlock hdr db rc ch st >>= readChansAux hdr db rc k (ch + 1)) = Except.ok st'
      rw [hblock, exBind_ok]
      exact hloop
    · dsimp only at hoff'
      omega
    · intro c j
      rw [hent' c j]
      dsimp only
      by_cases h2 : ch + 1 ≤ c ∧ c < hdr.nChannels ∧ rc * S ≤ j ∧ j < rc * S + S
      · rw [if_pos h2, if_pos (by omega : ch ≤ c ∧ c < hdr.nChannels ∧ rc * S ≤ j ∧ j < rc * S + S)]
        have hoffeq : st.offset + 2 * S + 2 * S * (c - (ch + 1)) = st.offset + 2 * S * (c - ch) := by
          have hcge : ch + 1 ≤ c := h2.1
          have : c - ch = (c - (ch + 1)) + 1 := by omega
          rw [this, Nat.mul_add, Nat.mul_one]
          omega
        rw [hoffeq]
      · rw [if_neg h2, hent1 c j]
        by_cases h1 : c = ch ∧ rc * S ≤ j ∧ j < rc * S + S
        · rw [if_pos h1, if_pos (by omega : ch ≤ c ∧ c < hdr.nChannels ∧ rc * S ≤ j ∧ j < rc * S + S)]
          have hc : c = ch := h1.1
          subst hc
          rw [Nat.sub_self, Nat.mul_zero, Nat.add_zero]
        · rw [if_neg h1, if_neg (by omega)]

lemma readRecs_ok (hdr : EDFHeader) (db : List Nat) (S W : Nat)
    (hU : ∀ c, c < hdr.nChannels → hdr.spr c = S)
    (hND : ∀ c, c < hdr.nChannels → hdr.dmax c - hdr.dmin c ≠ 0)
    (hW : hdr.nRecords * S ≤ W)
    (hlen : 2 * S * (hdr.nChannels * hdr.nRecords) ≤ db.length) :
    ∀ k rc st, rc + k = hdr.nRecords →
      st.mat.rows = hdr.nChannels → st.mat.cols = W →
      st.offset = 2 * S * (hdr.nChannels * rc) →
      ∃ st' : LoopSt,
        readRecsAux hdr db k rc st = Except.ok st' ∧
        st'.mat.rows = hdr.nChannels ∧ st'.mat.cols = W ∧
        ∀ c j, st'.mat.entry c j =
          if c < hdr.nChannels ∧ rc * S ≤ j ∧ j < hdr.nRecords * S
          then decodedVal hdr db S c j
          else st.mat.entry c j := by
  intro k
  induction k with
  | zero =>
    intro rc st hrce hrows hcols _hoff
    have hrc : rc = hdr.nRecords := by omega
    subst hrc
    refine ⟨st, rfl, hrows, hcols, ?_⟩
    intro c j
    rw [if_neg ?_]
    rintro ⟨_, hj1, hj2⟩
    omega
  | succ k ih =>
    intro rc st hrce hrows hcols hoff
    have hrcR : rc < hdr.nRecords := by omega
    have hmono : (rc + 1) * S ≤ hdr.nRecords * S := Nat.mul_le_mul_right S (by omega)
    have hmono2 : hdr.nChannels * (rc + 1) ≤ hdr.nChannels * hdr.nRecords :=
      Nat.mul_le_mul_left hdr.nChannels (by omega)
    have hslice : rc * S + S ≤ W := by
      have : rc * S + S = (rc + 1) * S := by ring
      omega
    have hbytes : st.offset + 2 * S * hdr.nChannels ≤ db.length := by
      have he : 2 * S * (hdr.nChannels * rc) + 2 * S * hdr.nChannels =
          2 * S * (hdr.nChannels * (rc + 1)) := by ring
      have h3 : 2 * S * (hdr.nChannels * (rc + 1)) ≤ 2 * S * (hdr.nChannels * hdr.nRecords) :=
        Nat.mul_le_mul_left (2 * S) hmono2
      omega
    obtain ⟨st1, hchans, hoff1, hrows1, hcols1, hent1⟩ :=
      readChans_ok hdr db rc S W hU hND hslice hdr.nChannels 0 st (by omega) hrows hcols hbytes
    obtain ⟨st', hloop, hrows', hcols', hent'⟩ :=
      ih (rc + 1) st1 (by omega) hrows1 hcols1
        (by rw [hoff1, hoff]; ring)
    refine ⟨st', ?_, hrows', hcols', ?_⟩
    · show (readChansAux hdr db rc hdr.nChannels 0 st >>= readRecsAux hdr db k (rc + 1)) =
        Except.ok st'
      rw [hchans, exBind_ok]
      exact hloop
    · intro c j
      rw [hent' c j, hent1 c j]
      by_cases h2 : c < hdr.nChannels ∧ (rc + 1) * S ≤ j ∧ j < hdr.nRecords * S
      · rw [if_pos h2, if_pos ?_]
        refine ⟨h2.1, ?_, h2.2.2⟩
        have : rc * S ≤ (rc + 1) * S := Nat.mul_le_mul_right S (by omega)
        omega
      · rw [if_neg h2]
        by_cases h1 : 0 ≤ c ∧ c < hdr.nChannels ∧ rc * S ≤ j ∧ j < rc * S + S
        · rw [if_pos h1, if_pos ?_]
          swap
          · refine ⟨h1.2.1, h1.2.2.1, ?_⟩
            have : rc * S + S = (rc + 1) * S := by ring
            omega
          obtain ⟨-, hcN, hj1, hj2⟩ := h1
          have hSpos : 0 < S := by omega
          have hdiv : j / S = rc := by
            refine Nat.div_eq_of_lt_le ?_ ?_
            · exact hj1
            · have : (rc + 1) * S = rc * S + S := by ring
              omega
          have hmod : j % S = j - rc * S := by
            have hdm := Nat.div_add_mod j S
            rw [hdiv] at hdm
            have hms : S * rc = rc * S := by ring
            omega
          unfold decodedVal blockOff
          rw [hdiv, hmod, hoff, Nat.sub_zero]
        · rw [if_neg h1, if_neg ?_]
          rintro ⟨hcN, hj1, hj2⟩
          by_cases hjw : j < rc * S + S
          · exact h1 ⟨Nat.zero_le c, hcN, hj1, hjw⟩
          · refine h2 ⟨hcN, ?_, hj2⟩
            have : (rc + 1) * S = rc * S + S := by ring
            omega

lemma spr_zero_eq (hdr : EDFHeader) (s0 : Nat) (rest : List Nat)
    (hsp : hdr.samplesPerRecord = s0 :: rest) : hdr.spr 0 = s0 := by
  unfold EDFHeader.spr
  rw [hsp]
  rfl

lemma read_edf_ok_char (hdr : EDFHeader) (fb : List Nat) (S : Nat)
    (hwf : hdr.WF) (hN : 0 < hdr.nChannels)
    (hU : ∀ c, c < hdr.nChannels → hdr.spr c = S)
    (hND : ∀ c, c < hdr.nChannels → hdr.dmax c - hdr.dmin c ≠ 0)
    (hrd : hdr.recordDuration ≠ 0)
    (hlen : 2 * S * (hdr.nChannels * hdr.nRecords) ≤ (fb.drop hdr.headerSize).length) :
    ∃ r : Recording, read_edf hdr fb = Except.ok r ∧
      r.channel_names = hdr.channelNames ∧
      r.data.rows = hdr.nChannels ∧ r.data.cols = hdr.nRecords * S ∧
      r.sampling_rate = (S : ℚ) / hdr.recordDuration ∧
      r.duration = (hdr.nRecords : ℚ) * hdr.recordDuration ∧
      r.n_records = hdr.nRecords ∧ r.record_duration = hdr.recordDuration ∧
      ∀ c j, c < hdr.nChannels → j < hdr.nRecords * S →
        r.data.entry c j = decodedVal hdr (fb.drop hdr.headerSize) S c j := by
  obtain ⟨s0, rest, hsp⟩ : ∃ s0 rest, hdr.samplesPerRecord = s0 :: rest := by
    cases hcs : hdr.samplesPerRecord with
    | nil =>
      exfalso
      have := hwf.2.2.2.2.2
      rw [hcs] at this
      simp at this
      omega
    | cons a l => exact ⟨a, l, rfl⟩
  have hs0 : s0 = S := by
    have h1 := spr_zero_eq hdr s0 rest hsp
    have h2 := hU 0 hN
    rw [h1] at h2
    exact h2
  rw [hs0] at hsp
  obtain ⟨stF, hloop, hrowsF, hcolsF, hentF⟩ :=
    readRecs_ok hdr (fb.drop hdr.headerSize) S (hdr.nRecords * S) hU hND le_rfl hlen
      hdr.nRecords 0 ⟨0, npZeros hdr.nChannels (hdr.nRecords * S)⟩ (by omega) rfl rfl
      (by simp)
  refine ⟨⟨hdr.channelNames, stF.mat, (S : ℚ) / hdr.recordDuration,
      (hdr.nRecords : ℚ) * hdr.recordDuration, hdr.nRecords, hdr.recordDuration⟩, ?_,
      rfl, hrowsF, hcolsF, rfl, rfl, rfl, rfl, ?_⟩
  · unfold read_edf
    rw [hsp]
    dsimp only
    rw [hloop, exBind_ok, if_neg hrd]
    rfl
  · intro c j hc hj
    dsimp only
    rw [hentF c j, if_pos ⟨hc, by omega, hj⟩]

/-- A 30-second recording: one channel, three 10-second records, one
sample per record, identity scaling (digital and physical range both
0..100). -/
def hdr30 : EDFHeader := ⟨0, 3, 10, 1, ["C3"], [0], [100], [0], [100], [1]⟩

/-- Data bytes of the 30-second recording: samples 10, 20, 30. -/
def bytes30 : List Nat := [10, 0, 20, 0, 30, 0]

/-- A 25-second recording: five 5-second records, one sample each. -/
def hdr25 : EDFHeader := ⟨0, 5, 5, 1, ["C3"], [0], [100], [0], [100], [1]⟩

/-- Data bytes of the 25-second recording. -/
def bytes25 : List Nat := [1, 0, 2, 0, 3, 0, 4, 0, 5, 0]

/-- A 5-second recording, shorter than one 10-second window. -/
def hdr5 : EDFHeader := ⟨0, 1, 5, 1, ["C3"], [0], [100], [0], [100], [1]⟩

/-- Data bytes of the 5-second recording. -/
def bytes5 : List Nat := [1, 0]

/-- A recording whose only channel declares digital_min = digital_max = 50. -/
def hdrDZ : EDFHeader := ⟨0, 1, 10, 1, ["C3"], [0], [100], [50], [50], [1]⟩

/-- Data bytes for the degenerate-range recording. -/
def bytesDZ : List Nat := [1, 0]

/-- A heterogeneous recording: channel 0 declares two samples per
record, channel 1 declares one. -/
def hdrHet : EDFHeader :=
  ⟨0, 1, 10, 2, ["C3", "C4"], [0, 0], [100, 100], [0, 0], [100, 100], [2, 1]⟩

/-- Data bytes of the heterogeneous recording: samples 1, 2 for channel
0 and sample 3 for channel 1. -/
def bytesHet : List Nat := [1, 0, 2, 0, 3, 0]

/-- The decoded 30-second recording. -/
def r30 : Recording := decodeOf hdr30 bytes30

/-- The decoded 25-second recording. -/
def r25 : Recording := decodeOf hdr25 bytes25

/-- The decoded heterogeneous recording. -/
def rHet : Recording := decodeOf hdrHet bytesHet

/-- Claim C1: for every valid EDF byte stream (well-formed header,
uniform samples-per-record, nondegenerate digital ranges, nonzero
record duration, untruncated data section) and every channel, every
decoded sample value equals
(digital_value - digital_min) * (physical_max - physical_min) /
(digital_max - digital_min) + physical_min, computed in the wide exact
domain on the int16 value read from the stream — no intermediate
result wraps modulo 2^16. -/
theorem c1_rescaling_in_wide_domain (hdr : EDFHeader) (fb : List Nat) (S : Nat) (r : Recording)
    (hwf : hdr.WF) (hN : 0 < hdr.nChannels)
    (hU : ∀ c, c < hdr.nChannels → hdr.spr c = S)
    (hND : ∀ c, c < hdr.nChannels → hdr.dmax c ≠ hdr.dmin c)
    (hrd : hdr.recordDuration ≠ 0)
    (hlen : 2 * S * (hdr.nChannels * hdr.nRecords) ≤ (fb.drop hdr.headerSize).length)
    (hok : read_edf hdr fb = Except.ok r)
    (ch j : Nat) (hch : ch < hdr.nChannels) (hj : j < hdr.nRecords * S) :
    r.data.entry ch j =
      ((int16At (fb.drop hdr.headerSize)
          (2 * ((j / S) * (hdr.nChannels * S) + ch * S + j % S)) : ℚ) - (hdr.dmin ch : ℚ)) *
        (hdr.pmax ch - hdr.pmin ch) / ((hdr.dmax ch : ℚ) - (hdr.dmin ch : ℚ)) + hdr.pmin ch := by
  obtain ⟨r', hok', _, _, _, _, _, _, _, hent⟩ :=
    read_edf_ok_char hdr fb S hwf hN hU (fun c hc => sub_ne_zero_of_ne (hND c hc)) hrd hlen
  rw [hok'] at hok
  injection hok with hr
  subst hr
  rw [hent ch j hch hj]
  unfold decodedVal blockVal
  have hidx : blockOff hdr.nChannels S (j / S) ch + 2 * (j % S) =
      2 * ((j / S) * (hdr.nChannels * S) + ch * S + j % S) := by
    unfold blockOff
    ring
  rw [hidx, mul_div_assoc]

/-- Witness for C1 at a concrete 30-second file, sample index 1. -/
theorem c1_witness :
    r30.data.entry 0 1 =
      ((int16At (bytes30.drop hdr30.headerSize)
          (2 * ((1 / 1) * (hdr30.nChannels * 1) + 0 * 1 + 1 % 1)) : ℚ) - (hdr30.dmin 0 : ℚ)) *
        (hdr30.pmax 0 - hdr30.pmin 0) / ((hdr30.dmax 0 : ℚ) - (hdr30.dmin 0 : ℚ)) +
        hdr30.pmin 0 :=
  c1_rescaling_in_wide_domain hdr30 bytes30 1 r30 (by decide) (by decide) (by decide)
    (by decide) (by decide) (by decide) rfl 0 1 (by decide) (by decide)

/-- Claim C9: for every valid recording with N channels each declaring
S samples per record and record_count records, decoding yields a
sample matrix of shape [N, record_count * S], with sampling_rate
samples_per_record[0] / record_duration. -/
theorem c9_matrix_shape_and_rate (hdr : EDFHeader) (fb : List Nat) (S : Nat) (r : Recording)
    (hwf : hdr.WF) (hN : 0 < hdr.nChannels)
    (hU : ∀ c, c < hdr.nChannels → hdr.spr c = S)
    (hND : ∀ c, c < hdr.nChannels → hdr.dmax c ≠ hdr.dmin c)
    (hrd : hdr.recordDuration ≠ 0)
    (hlen : 2 * S * (hdr.nChannels * hdr.nRecords) ≤ (fb.drop hdr.headerSize).length)
    (hok : read_edf hdr fb = Except.ok r) :
    r.data.rows = hdr.nChannels ∧ r.data.cols = hdr.nRecords * S ∧
    r.sampling_rate = (hdr.spr 0 : ℚ) / hdr.recordDuration := by
  obtain ⟨r', hok', _, hrows, hcols, hsr, _, _, _, _⟩ :=
    read_edf_ok_char hdr fb S hwf hN hU (fun c hc => sub_ne_zero_of_ne (hND c hc)) hrd hlen
  rw [hok'] at hok
  injection hok with hr
  subst hr
  refine ⟨hrows, hcols, ?_⟩
  rw [hsr, hU 0 hN]

/-- Witness for C9 at the concrete 30-second file. -/
theorem c9_witness :
    r30.data.rows = hdr30.nChannels ∧ r30.data.cols = hdr30.nRecords * 1 ∧
    r30.sampling_rate = (hdr30.spr 0 : ℚ) / hdr30.recordDuration :=
  c9_matrix_shape_and_rate hdr30 bytes30 1 r30 (by decide) (by decide) (by decide)
    (by decide) (by decide) (by decide) rfl

/-- Claim C3: for every decoded Recording, segmentation with the fixed
10-second window produces exactly floor(total_duration / 10) snippets,
dropping any trailing remainder shorter than one full window. -/
theorem c3_snippet_count (hdr : EDFHeader) (fb : List Nat) (stem nm : String) (r : Recording)
    (hok : read_edf hdr fb = Except.ok r) (hd : 0 ≤ r.duration) :
    ((_extract_snippets_from_edf hdr fb stem nm).length : ℤ) = ⌊r.duration / 10⌋ := by
  unfold _extract_snippets_from_edf
  rw [hok]
  unfold extractSnippetsOk
  rw [List.length_map, List.length_range]
  rw [Int.toNat_of_nonneg]
  exact Int.floor_nonneg.mpr (div_nonneg hd (by norm_num))

/-- Witness for C3: a 30-second recording yields exactly 3 snippets and
a 25-second recording exactly 2, the trailing 5 seconds dropped. -/
theorem c3_witness :
    ((_extract_snippets_from_edf hdr30 bytes30 "a" "a.edf").length : ℤ) = 3 ∧
    ((_extract_snippets_from_edf hdr25 bytes25 "b" "b.edf").length : ℤ) = 2 := by
  constructor
  · rw [c3_snippet_count hdr30 bytes30 "a" "a.edf" r30 rfl (by with_unfolding_all decide)]
    with_unfolding_all decide
  · rw [c3_snippet_count hdr25 bytes25 "b" "b.edf" r25 rfl (by with_unfolding_all decide)]
    with_unfolding_all decide

lemma spr_cons_of_wf (hdr : EDFHeader) (hwf : hdr.WF) (hN : 0 < hdr.nChannels) :
    ∃ s0 rest, hdr.samplesPerRecord = s0 :: rest := by
  cases hcs : hdr.samplesPerRecord with
  | nil =>
    exfalso
    have hl := hwf.2.2.2.2.2
    rw [hcs] at hl
    simp at hl
    omega
  | cons a l => exact ⟨a, l, rfl⟩

/-- Claim C2 (amended): a file whose first channel declares
digital_max = digital_min makes `read_edf` raise the unhandled
arithmetic ZeroDivisionError at the scale computation (no `FormatError`
type exists anywhere in the code); `_extract_snippets_from_edf`
catches it together with every other exception and returns an empty
snippet list after printing a diagnostic. The same fault occurs for a
later degenerate channel once its first block is reached. -/
theorem c2_degenerate_range_raises_zero_division (hdr : EDFHeader) (fb : List Nat)
    (stem nm : String)
    (hwf : hdr.WF) (hN : 0 < hdr.nChannels) (hR : 0 < hdr.nRecords)
    (hdz : hdr.dmax 0 = hdr.dmin 0)
    (hlen : hdr.spr 0 * 2 ≤ (fb.drop hdr.headerSize).length) :
    read_edf hdr fb = Except.error PyError.zeroDivision ∧
    _extract_snippets_from_edf hdr fb stem nm = [] := by
  have hblock : ∀ st : LoopSt, st.offset = 0 →
      readBlock hdr (fb.drop hdr.headerSize) 0 0 st = Except.error PyError.zeroDivision := by
    intro st hoff
    unfold readBlock
    have hraw : frombufferInt16
        ((((fb.drop hdr.headerSize)).drop st.offset).take (hdr.spr 0 * 2)) =
        Except.ok (bytesToInt16s
          ((((fb.drop hdr.headerSize)).drop st.offset).take (hdr.spr 0 * 2))) := by
      unfold frombufferInt16
      rw [if_pos ?_]
      rw [hoff, List.drop_zero, List.length_take]
      omega
    rw [hraw]
    dsimp only
    rw [if_pos (sub_eq_zero_of_eq hdz)]
  have hchans : ∀ k (st : LoopSt), st.offset = 0 → 0 < k →
      readChansAux hdr (fb.drop hdr.headerSize) 0 k 0 st =
        Except.error PyError.zeroDivision := by
    intro k st hoff hk
    cases k with
    | zero => omega
    | succ k =>
      show (readBlock hdr (fb.drop hdr.headerSize) 0 0 st >>=
        readChansAux hdr (fb.drop hdr.headerSize) 0 k 1) = Except.error PyError.zeroDivision
      rw [hblock st hoff, exBind_err]
  have hrecs : ∀ mat : NpArray2,
      readRecsAux hdr (fb.drop hdr.headerSize) hdr.nRecords 0 ⟨0, mat⟩ =
        Except.error PyError.zeroDivision := by
    intro mat
    obtain ⟨k', hk'⟩ : ∃ k', hdr.nRecords = k' + 1 := ⟨hdr.nRecords - 1, by omega⟩
    rw [hk']
    show (readChansAux hdr (fb.drop hdr.headerSize) 0 hdr.nChannels 0 ⟨0, mat⟩ >>=
      readRecsAux hdr (fb.drop hdr.headerSize) k' 1) = Except.error PyError.zeroDivision
    rw [hchans hdr.nChannels ⟨0, mat⟩ rfl hN, exBind_err]
  have hmain : read_edf hdr fb = Except.error PyError.zeroDivision := by
    obtain ⟨s0, rest, hsp⟩ := spr_cons_of_wf hdr hwf hN
    unfold read_edf
    rw [hsp]
    dsimp only
    rw [hrecs (npZeros hdr.nChannels (hdr.nRecords * s0)), exBind_err]
  refine ⟨hmain, ?_⟩
  unfold _extract_snippets_from_edf
  rw [hmain]

/-- Counterexample to claim C2 as stated: on a concrete file with
digital_min = digital_max, decoding yields precisely the
division-by-zero arithmetic fault (modelled as `PyError.zeroDivision`,
Python ZeroDivisionError) — there is no `FormatError` naming the
offending field anywhere; the extractor swallows the fault into an
empty list. -/
theorem c2_counterexample :
    read_edf hdrDZ bytesDZ = Except.error PyError.zeroDivision ∧
    _extract_snippets_from_edf hdrDZ bytesDZ "z" "z.edf" = [] := by
  constructor
  · with_unfolding_all rfl
  · with_unfolding_all rfl

/-- A second degenerate-range file, used to witness the amended C2. -/
def hdrDZ2 : EDFHeader := ⟨0, 1, 10, 1, ["C4"], [0], [100], [7], [7], [1]⟩

/-- Data bytes for the second degenerate-range file. -/
def bytesDZ2 : List Nat := [2, 0]

/-- Witness for the amended C2 at a concrete degenerate file. -/
theorem c2_witness :
    read_edf hdrDZ2 bytesDZ2 = Except.error PyError.zeroDivision ∧
    _extract_snippets_from_edf hdrDZ2 bytesDZ2 "w" "w.edf" = [] :=
  c2_degenerate_range_raises_zero_division hdrDZ2 bytesDZ2 "w" "w.edf" (by decide)
    (by decide) (by decide) (by decide) (by decide)

/-- Counterexample to claim C8 as stated: the file whose channels
declare different samples-per-record values (2 and 1) decodes
successfully — decoding does not fail, fast or otherwise, on
heterogeneity. -/
theorem c8_counterexample : exOk (read_edf hdrHet bytesHet) = true := by
  with_unfolding_all rfl

/-- Claim C8 (amended): `read_edf` never checks the declared
samples-per-record values for uniformity; it sizes the matrix from
channel 0 alone and reads each channel by its own declared count, so a
heterogeneous file whose per-channel writes stay inside the
channel-0-sized matrix decodes silently into a misaligned matrix — here
channel 1 declared one sample but receives a row of width two, padded
with an untouched zero. An incidental broadcast ValueError, not an
explicit heterogeneity failure, is the only way such a file can fail. -/
theorem c8_silent_heterogeneous_decode :
    read_edf hdrHet bytesHet = Except.ok rHet ∧
    rHet.data.rows = 2 ∧ rHet.data.cols = 2 ∧
    rHet.data.entry 0 0 = 1 ∧ rHet.data.entry 0 1 = 2 ∧
    rHet.data.entry 1 0 = 3 ∧ rHet.data.entry 1 1 = 0 := by
  refine ⟨by with_unfolding_all rfl, by with_unfolding_all decide,
    by with_unfolding_all decide, by with_unfolding_all decide, by with_unfolding_all decide,
    by with_unfolding_all decide, by with_unfolding_all decide⟩

lemma lookup_cons_self {β : Type} (a : String) (b : β) (l : List (String × β)) :
    ((a, b) :: l).lookup a = some b := by
  simp [List.lookup]

lemma lookup_cons_ne {β : Type} (a k : String) (b : β) (l : List (String × β)) (h : a ≠ k) :
    ((k, b) :: l).lookup a = l.lookup a := by
  simp [List.lookup, beq_eq_false_iff_ne.mpr h]

lemma lookup_filter_none {β : Type} (p q : String) (l : List (String × β))
    (h : l.lookup p = none) :
    (l.filter fun kv => kv.1 ≠ q).lookup p = none := by
  induction l with
  | nil => rfl
  | cons kv rest ih =>
    obtain ⟨k, v⟩ := kv
    by_cases hpk : p = k
    · subst hpk
      rw [lookup_cons_self] at h
      exact absurd h (by simp)
    · rw [lookup_cons_ne p k v rest hpk] at h
      by_cases hkq : k ≠ q
      · rw [List.filter_cons_of_pos (by simpa using hkq), lookup_cons_ne p k v _ hpk]
        exact ih h
      · rw [List.filter_cons_of_neg (by simpa using hkq)]
        exact ih h

/-- A concrete md5-prefix stand-in for the cache-path derivation. -/
def hashId : String → String := fun s => s

/-- The 30-second file as a directory entry named a.edf. -/
def fileA : EdfFile := ⟨"a.edf", "a", hdr30, bytes30⟩

/-- The 25-second file as a directory entry named A.EDF: a genuinely
distinct recording whose name differs from a.edf only by case. -/
def fileAUpper : EdfFile := ⟨"A.EDF", "A", hdr25, bytes25⟩

/-- The 5-second file (shorter than one window) as a directory entry. -/
def fileShort : EdfFile := ⟨"s.edf", "s", hdr5, bytes5⟩

/-- A directory entry with a mixed-case extension. -/
def fileBMixed : EdfFile := ⟨"b.Edf", "b", hdr30, bytes30⟩

/-- A parser state whose only on-disk cache entry, the one for fileA,
is corrupt. -/
def stCorrupt : ParserState :=
  ⟨[(_get_cache_path hashId "cache" "edf" fileA, CacheFile.corrupt)], none, 0, []⟩

/-- Claim C4 (amended): when the on-disk cache entry for a file exists
but is corrupt and force_reprocess is false, `process_edf_file`
propagates the deserialization error (json.JSONDecodeError) to its
caller unchanged: the corrupt entry is not treated as a miss, no
rebuild happens, and the state — decode count, disk cache, write
trace — is untouched. -/
theorem c4_corrupt_cache_propagates (hash8 : String → String) (cacheDir edfDir : String)
    (f : EdfFile) (st : ParserState)
    (hcor : st.diskCache.lookup (_get_cache_path hash8 cacheDir edfDir f) =
      some CacheFile.corrupt) :
    process_edf_file hash8 cacheDir edfDir f false st = (Except.error PyError.jsonDecode, st) := by
  unfold process_edf_file
  dsimp only
  rw [hcor]

/-- Counterexample to claim C4 as stated: with a corrupt cache entry
for fileA, the get-or-build call returns the deserialization error to
the caller and performs no rebuild (the decode count stays zero) —
the corruption is not treated as a cache miss. -/
theorem c4_counterexample :
    (process_edf_file hashId "cache" "edf" fileA false stCorrupt).1 =
      Except.error PyError.jsonDecode ∧
    (process_edf_file hashId "cache" "edf" fileA false stCorrupt).2.decodeCount = 0 := by
  constructor
  · with_unfolding_all rfl
  · with_unfolding_all rfl

/-- A second corrupt-entry state, over the short file, to witness the
amended C4. -/
def stCorrupt2 : ParserState :=
  ⟨[(_get_cache_path hashId "cache2" "edf2" fileShort, CacheFile.corrupt)], none, 5, []⟩

/-- Witness for the amended C4 at a concrete corrupt-entry state. -/
theorem c4_witness :
    process_edf_file hashId "cache2" "edf2" fileShort false stCorrupt2 =
      (Except.error PyError.jsonDecode, stCorrupt2) :=
  c4_corrupt_cache_propagates hashId "cache2" "edf2" fileShort stCorrupt2 (by decide)

/-- Claim C10: when snippet extraction yields an empty list — in
particular whenever `read_edf` raises, since the extractor catches
every exception into an empty list — `process_edf_file` does not write
a cache entry: the disk cache and write trace are unchanged, and a
subsequent non-cached call decodes the file again. -/
theorem c10_empty_extraction_never_cached (hash8 : String → String) (cacheDir edfDir : String)
    (f : EdfFile) (st : ParserState)
    (hmiss : st.diskCache.lookup (_get_cache_path hash8 cacheDir edfDir f) = none)
    (hE : _extract_snippets_from_edf f.hdr f.bytes f.stem f.nm = []) :
    (∀ e, read_edf f.hdr f.bytes = Except.error e →
      _extract_snippets_from_edf f.hdr f.bytes f.stem f.nm = []) ∧
    process_edf_file hash8 cacheDir edfDir f false st =
      (Except.ok [], { st with decodeCount := st.decodeCount + 1 }) ∧
    (process_edf_file hash8 cacheDir edfDir f false
      { st with decodeCount := st.decodeCount + 1 }).2.diskCache = st.diskCache ∧
    (process_edf_file hash8 cacheDir edfDir f false
      { st with decodeCount := st.decodeCount + 1 }).2.ops = st.ops ∧
    (process_edf_file hash8 cacheDir edfDir f false
      { st with decodeCount := st.decodeCount + 1 }).2.decodeCount = st.decodeCount + 2 := by
  have hstep : ∀ st' : ParserState,
      st'.diskCache.lookup (_get_cache_path hash8 cacheDir edfDir f) = none →
      process_edf_file hash8 cacheDir edfDir f false st' =
        (Except.ok [], { st' with decodeCount := st'.decodeCount + 1 }) := by
    intro st' hmiss'
    unfold process_edf_file
    dsimp only
    rw [hmiss']
    dsimp only
    rw [hE]
    rw [if_pos rfl]
  refine ⟨?_, hstep st hmiss, ?_, ?_, ?_⟩
  · intro e he
    unfold _extract_snippets_from_edf
    rw [he]
  · rw [hstep { st with decodeCount := st.decodeCount + 1 } hmiss]
  · rw [hstep { st with decodeCount := st.decodeCount + 1 } hmiss]
  · rw [hstep { st with decodeCount := st.decodeCount + 1 } hmiss]

/-- Witness for C10: the 5-second file extracts zero snippets; two
uncached calls leave the disk cache and write trace empty and decode
twice. -/
theorem c10_witness :
    (∀ e, read_edf fileShort.hdr fileShort.bytes = Except.error e →
      _extract_snippets_from_edf fileShort.hdr fileShort.bytes fileShort.stem fileShort.nm = []) ∧
    process_edf_file hashId "cache" "edf" fileShort false initState =
      (Except.ok [], { initState with decodeCount := initState.decodeCount + 1 }) ∧
    (process_edf_file hashId "cache" "edf" fileShort false
      { initState with decodeCount := initState.decodeCount + 1 }).2.diskCache =
        initState.diskCache ∧
    (process_edf_file hashId "cache" "edf" fileShort false
      { initState with decodeCount := initState.decodeCount + 1 }).2.ops = initState.ops ∧
    (process_edf_file hashId "cache" "edf" fileShort false
      { initState with decodeCount := initState.decodeCount + 1 }).2.decodeCount =
        initState.decodeCount + 2 :=
  c10_empty_extraction_never_cached hashId "cache" "edf" fileShort initState rfl
    (by with_unfolding_all rfl)

/-- Claim C5 (amended): for an unchanged source file whose extraction
yields a nonempty snippet list (and whose prior cache entry, if any, is
not corrupt), two successive `process_edf_file` calls without
force_reprocess return identical snippet sequences and the second call
performs no decode: its result comes from the cache entry written or
found by the first call, without invoking the reader or segmenter. A
file whose extraction is empty is re-decoded on every call (see the
counterexample). -/
theorem c5_cache_idempotent_nonempty (hash8 : String → String) (cacheDir edfDir : String)
    (f : EdfFile) (st : ParserState)
    (hne : _extract_snippets_from_edf f.hdr f.bytes f.stem f.nm ≠ [])
    (hnc : st.diskCache.lookup (_get_cache_path hash8 cacheDir edfDir f) ≠
      some CacheFile.corrupt) :
    (process_edf_file hash8 cacheDir edfDir f false
        (process_edf_file hash8 cacheDir edfDir f false st).2).1 =
      (process_edf_file hash8 cacheDir edfDir f false st).1 ∧
    (process_edf_file hash8 cacheDir edfDir f false
        (process_edf_file hash8 cacheDir edfDir f false st).2).2.decodeCount =
      (process_edf_file hash8 cacheDir edfDir f false st).2.decodeCount := by
  cases hcase : st.diskCache.lookup (_get_cache_path hash8 cacheDir edfDir f) with
  | some cf =>
    cases cf with
    | corrupt => exact absurd hcase hnc
    | valid s =>
      have hc1 : process_edf_file hash8 cacheDir edfDir f false st = (Except.ok s, st) := by
        unfold process_edf_file
        dsimp only
        rw [hcase]
      rw [hc1]
      rw [hc1]
      exact ⟨rfl, rfl⟩
  | none =>
    have hc1 : process_edf_file hash8 cacheDir edfDir f false st =
        (Except.ok (_extract_snippets_from_edf f.hdr f.bytes f.stem f.nm),
          writeCache { st with decodeCount := st.decodeCount + 1 }
            (_get_cache_path hash8 cacheDir edfDir f)
            (_extract_snippets_from_edf f.hdr f.bytes f.stem f.nm)) := by
      unfold process_edf_file
      dsimp only
      rw [hcase]
      dsimp only
      rw [if_neg hne]
    have hlook2 : (writeCache { st with decodeCount := st.decodeCount + 1 }
        (_get_cache_path hash8 cacheDir edfDir f)
        (_extract_snippets_from_edf f.hdr f.bytes f.stem f.nm)).diskCache.lookup
          (_get_cache_path hash8 cacheDir edfDir f) =
        some (CacheFile.valid (_extract_snippets_from_edf f.hdr f.bytes f.stem f.nm)) := by
      unfold writeCache
      dsimp only
      rw [lookup_cons_self]
    have hc2 : process_edf_file hash8 cacheDir edfDir f false
        (writeCache { st with decodeCount := st.decodeCount + 1 }
          (_get_cache_path hash8 cacheDir edfDir f)
          (_extract_snippets_from_edf f.hdr f.bytes f.stem f.nm)) =
        (Except.ok (_extract_snippets_from_edf f.hdr f.bytes f.stem f.nm),
          writeCache { st with decodeCount := st.decodeCount + 1 }
            (_get_cache_path hash8 cacheDir edfDir f)
            (_extract_snippets_from_edf f.hdr f.bytes f.stem f.nm)) := by
      unfold process_edf_file
      dsimp only
      rw [hlook2]
    rw [hc1, hc2]
    exact ⟨rfl, rfl⟩

/-- Counterexample to claim C5 as stated: for the 5-second file (empty
extraction, nothing cached), the second of two successive uncached
calls does decode again — the decode count after two calls is 2, not
1, contradicting that the second call performs no decode for every
unchanged file. -/
theorem c5_counterexample :
    (process_edf_file hashId "cache" "edf" fileShort false
        (process_edf_file hashId "cache" "edf" fileShort false initState).2).2.decodeCount = 2 := by
  with_unfolding_all rfl

/-- Witness for the amended C5 at the concrete 30-second file from an
empty initial state. -/
theorem c5_witness :
    (process_edf_file hashId "cache" "edf" fileA false
        (process_edf_file hashId "cache" "edf" fileA false initState).2).1 =
      (process_edf_file hashId "cache" "edf" fileA false initState).1 ∧
    (process_edf_file hashId "cache" "edf" fileA false
        (process_edf_file hashId "cache" "edf" fileA false initState).2).2.decodeCount =
      (process_edf_file hashId "cache" "edf" fileA false initState).2.decodeCount :=
  c5_cache_idempotent_nonempty hashId "cache" "edf" fileA initState
    (by with_unfolding_all decide) (by decide)

/-- Claim C6 (amended): when `process_edf_file` persists a newly built
nonempty snippet list, it opens the final cache path directly for
writing and dumps the JSON there — no temporary location, no
rename/replace — so the persist step is not atomic in the sense the
spec requires: a partially written entry is visible at the final cache
path during the write. -/
theorem c6_persist_writes_final_path_directly (hash8 : String → String)
    (cacheDir edfDir : String) (f : EdfFile) (st : ParserState)
    (hmiss : st.diskCache.lookup (_get_cache_path hash8 cacheDir edfDir f) = none)
    (hne : _extract_snippets_from_edf f.hdr f.bytes f.stem f.nm ≠ []) :
    (process_edf_file hash8 cacheDir edfDir f false st).2.ops =
      st.ops ++ [FsOp.openWrite (_get_cache_path hash8 cacheDir edfDir f),
        FsOp.writeJson (_get_cache_path hash8 cacheDir edfDir f)
          (_extract_snippets_from_edf f.hdr f.bytes f.stem f.nm)] ∧
    specAtomicPersist (_get_cache_path hash8 cacheDir edfDir f)
      ((process_edf_file hash8 cacheDir edfDir f false st).2.ops.drop st.ops.length) = false := by
  have hstep : process_edf_file hash8 cacheDir edfDir f false st =
      (Except.ok (_extract_snippets_from_edf f.hdr f.bytes f.stem f.nm),
        writeCache { st with decodeCount := st.decodeCount + 1 }
          (_get_cache_path hash8 cacheDir edfDir f)
          (_extract_snippets_from_edf f.hdr f.bytes f.stem f.nm)) := by
    unfold process_edf_file
    dsimp only
    rw [hmiss]
    dsimp only
    rw [if_neg hne]
  constructor
  · rw [hstep]
    rfl
  · rw [hstep]
    unfold writeCache
    dsimp only
    rw [List.drop_left]
    unfold specAtomicPersist
    simp [opWritesTo]

/-- Counterexample to claim C6 as stated: the write trace of a
concrete cache-persisting call is not an atomic temp-write-then-rename
— it opens the final cache path directly. -/
theorem c6_counterexample :
    specAtomicPersist (_get_cache_path hashId "cache" "edf" fileA)
      (process_edf_file hashId "cache" "edf" fileA false initState).2.ops = false := by
  with_unfolding_all rfl

/-- Witness for the amended C6 at the concrete 30-second file. -/
theorem c6_witness :
    (process_edf_file hashId "cache" "edf" fileA false initState).2.ops =
      initState.ops ++ [FsOp.openWrite (_get_cache_path hashId "cache" "edf" fileA),
        FsOp.writeJson (_get_cache_path hashId "cache" "edf" fileA)
          (_extract_snippets_from_edf fileA.hdr fileA.bytes fileA.stem fileA.nm)] ∧
    specAtomicPersist (_get_cache_path hashId "cache" "edf" fileA)
      ((process_edf_file hashId "cache" "edf" fileA false initState).2.ops.drop
        initState.ops.length) = false :=
  c6_persist_writes_final_path_directly hashId "cache" "edf" fileA initState rfl
    (by with_unfolding_all decide)

lemma not_endsWith_both (s : String) (h1 : strEndsWith s ".edf" = true)
    (h2 : strEndsWith s ".EDF" = true) : False := by
  unfold strEndsWith at h1 h2
  rw [List.isSuffixOf_iff_suffix] at h1 h2
  obtain ⟨t1, ht1⟩ := h1
  obtain ⟨t2, ht2⟩ := h2
  have hlen : t1.length = t2.length := by
    have e1 := congrArg List.length ht1
    have e2 := congrArg List.length ht2
    simp [List.length_append] at e1 e2
    omega
  have h3 := List.append_inj (ht1.trans ht2.symm) hlen
  exact absurd h3.2 (by decide)

lemma processAll_fresh (hash8 : String → String) (cacheDir edfDir : String) :
    ∀ (fs : List EdfFile) (st : ParserState),
      (∀ f ∈ fs, st.diskCache.lookup (_get_cache_path hash8 cacheDir edfDir f) = none) →
      fs.Pairwise (fun a b => _get_cache_path hash8 cacheDir edfDir a ≠
        _get_cache_path hash8 cacheDir edfDir b) →
      ∃ st' : ParserState,
        processAll hash8 cacheDir edfDir fs false st =
          (Except.ok (fs.flatMap fun f =>
            _extract_snippets_from_edf f.hdr f.bytes f.stem f.nm), st') ∧
        st'.decodeCount = st.decodeCount + fs.length ∧
        st'.memoCache = st.memoCache := by
  intro fs
  induction fs with
  | nil =>
    intro st _hmiss _hpw
    exact ⟨st, rfl, by simp, rfl⟩
  | cons f rest ih =>
    intro st hmiss hpw
    by_cases hE : _extract_snippets_from_edf f.hdr f.bytes f.stem f.nm = []
    · have hc1 : process_edf_file hash8 cacheDir edfDir f false st =
          (Except.ok [], { st with decodeCount := st.decodeCount + 1 }) := by
        unfold process_edf_file
        dsimp only
        rw [hmiss f (List.mem_cons_self f rest)]
        dsimp only
        rw [hE]
        rw [if_pos rfl]
      obtain ⟨st', hrest, hdc, hmemo⟩ := ih { st with decodeCount := st.decodeCount + 1 }
        (fun g hg => hmiss g (List.mem_cons_of_mem f hg)) hpw.of_cons
      refine ⟨st', ?_, by dsimp only at hdc; rw [List.length_cons]; omega, ?_⟩
      show (match process_edf_file hash8 cacheDir edfDir f false st with
        | (Except.error e, st1) => (Except.error e, st1)
        | (Except.ok snips, st1) =>
          match processAll hash8 cacheDir edfDir rest false st1 with
          | (Except.ok acc, st2) => (Except.ok (snips ++ acc), st2)
          | (Except.error e, st2) => (Except.error e, st2)) = _
      rw [hc1]
      dsimp only
      rw [hrest]
      dsimp only
      rw [List.flatMap_cons, hE]
      exact hmemo
    · have hc1 : process_edf_file hash8 cacheDir edfDir f false st =
          (Except.ok (_extract_snippets_from_edf f.hdr f.bytes f.stem f.nm),
            writeCache { st with decodeCount := st.decodeCount + 1 }
              (_get_cache_path hash8 cacheDir edfDir f)
              (_extract_snippets_from_edf f.hdr f.bytes f.stem f.nm)) := by
        unfold process_edf_file
        dsimp only
        rw [hmiss f (List.mem_cons_self f rest)]
        dsimp only
        rw [if_neg hE]
      have hmiss2 : ∀ g ∈ rest,
          (writeCache { st with decodeCount := st.decodeCount + 1 }
            (_get_cache_path hash8 cacheDir edfDir f)
            (_extract_snippets_from_edf f.hdr f.bytes f.stem f.nm)).diskCache.lookup
              (_get_cache_path hash8 cacheDir edfDir g) = none := by
        intro g hg
        have hne : _get_cache_path hash8 cacheDir edfDir g ≠
            _get_cache_path hash8 cacheDir edfDir f := by
          have := (List.pairwise_cons.mp hpw).1 g hg
          exact fun h => this h.symm
        unfold writeCache
        dsimp only
        rw [lookup_cons_ne _ _ _ _ hne]
        exact lookup_filter_none _ _ _ (hmiss g (List.mem_cons_of_mem f hg))
      obtain ⟨st', hrest, hdc, hmemo⟩ := ih
        (writeCache { st with decodeCount := st.decodeCount + 1 }
          (_get_cache_path hash8 cacheDir edfDir f)
          (_extract_snippets_from_edf f.hdr f.bytes f.stem f.nm))
        hmiss2 hpw.of_cons
      refine ⟨st', ?_, ?_, ?_⟩
      · show (match process_edf_file hash8 cacheDir edfDir f false st with
          | (Except.error e, st1) => (Except.error e, st1)
          | (Except.ok snips, st1) =>
            match processAll hash8 cacheDir edfDir rest false st1 with
            | (Except.ok acc, st2) => (Except.ok (snips ++ acc), st2)
            | (Except.error e, st2) => (Except.error e, st2)) = _
        rw [hc1]
        dsimp only
        rw [hrest]
        dsimp only
        rw [List.flatMap_cons]
      · rw [hdc]
        unfold writeCache
        dsimp only
        rw [List.length_cons]
        omega
      · rw [hmemo]
        unfold writeCache
        rfl

/-- Claim C7 (amended): `get_all_snippets` enumerates exactly the files
whose names end in `.edf` or `.EDF` — the two literal case spellings,
not a fully case-insensitive extension match (a mixed-case name such as
b.Edf is skipped, see the counterexample) — de-duplicated by path, so
a.edf and A.EDF present once each yield exactly two distinct
recordings, never the same file twice; it concatenates each file's
snippet list in enumeration order, decodes each enumerated file exactly
once from a fresh state, memoises the aggregate in memory, and a second
non-forced call returns the memoised collection with the state
untouched. -/
theorem c7_directory_aggregation (hash8 : String → String) (cacheDir edfDir : String)
    (files : List EdfFile)
    (hdist : (edfGlobFiles files).Pairwise (fun a b =>
      _get_cache_path hash8 cacheDir edfDir a ≠ _get_cache_path hash8 cacheDir edfDir b)) :
    (∀ f, f ∈ edfGlobFiles files ↔
      f ∈ files ∧ (strEndsWith f.nm ".edf" = true ∨ strEndsWith f.nm ".EDF" = true)) ∧
    (get_all_snippets hash8 cacheDir edfDir files false initState).1 =
      Except.ok ((edfGlobFiles files).flatMap fun f =>
        _extract_snippets_from_edf f.hdr f.bytes f.stem f.nm) ∧
    (get_all_snippets hash8 cacheDir edfDir files false initState).2.decodeCount =
      (edfGlobFiles files).length ∧
    (get_all_snippets hash8 cacheDir edfDir files false initState).2.memoCache =
      some ((edfGlobFiles files).flatMap fun f =>
        _extract_snippets_from_edf f.hdr f.bytes f.stem f.nm) ∧
    get_all_snippets hash8 cacheDir edfDir files false
        (get_all_snippets hash8 cacheDir edfDir files false initState).2 =
      ((get_all_snippets hash8 cacheDir edfDir files false initState).1,
        (get_all_snippets hash8 cacheDir edfDir files false initState).2) := by
  have hmem : ∀ f, f ∈ edfGlobFiles files ↔
      f ∈ files ∧ (strEndsWith f.nm ".edf" = true ∨ strEndsWith f.nm ".EDF" = true) := by
    intro f
    unfold edfGlobFiles
    dsimp only
    constructor
    · intro hf
      rcases List.mem_append.mp hf with h | h
      · have h1 := List.mem_filter.mp h
        exact ⟨h1.1, Or.inl h1.2⟩
      · have h1 := List.mem_filter.mp h
        have h2 := List.mem_filter.mp h1.1
        exact ⟨h2.1, Or.inr h2.2⟩
    · rintro ⟨hin, hext | hext⟩
      · exact List.mem_append.mpr (Or.inl (List.mem_filter.mpr ⟨hin, hext⟩))
      · refine List.mem_append.mpr (Or.inr (List.mem_filter.mpr
          ⟨List.mem_filter.mpr ⟨hin, hext⟩, ?_⟩))
        simp only [decide_eq_true_eq]
        intro hcont
        have hmemf : f ∈ files.filter fun g => strEndsWith g.nm ".edf" := by
          have := List.elem_iff.mp hcont
          exact this
        exact not_endsWith_both f.nm (List.mem_filter.mp hmemf).2 hext
  obtain ⟨st', hall, hdc, hmemo⟩ :=
    processAll_fresh hash8 cacheDir edfDir (edfGlobFiles files) initState
      (fun g _ => rfl) hdist
  have hga : get_all_snippets hash8 cacheDir edfDir files false initState =
      (Except.ok ((edfGlobFiles files).flatMap fun f =>
          _extract_snippets_from_edf f.hdr f.bytes f.stem f.nm),
        { st' with memoCache := some ((edfGlobFiles files).flatMap fun f =>
            _extract_snippets_from_edf f.hdr f.bytes f.stem f.nm) }) := by
    unfold get_all_snippets
    rw [show initState.memoCache = none from rfl]
    dsimp only
    rw [hall]
  refine ⟨hmem, ?_, ?_, ?_, ?_⟩
  · rw [hga]
  · rw [hga]
    dsimp only
    rw [hdc]
    dsimp only [initState]
    omega
  · rw [hga]
  · rw [hga]
    unfold get_all_snippets
    rfl

/-- Counterexample to claim C7 as stated: extension matching is not
case-insensitive — a directory whose only file is b.Edf, whose
extension matches .edf case-insensitively, is not enumerated at all,
so its snippets never appear and no decode happens. -/
theorem c7_counterexample :
    edfGlobFiles [fileBMixed] = [] ∧
    strEndsWith "b.Edf".toLower ".edf" = true ∧
    (get_all_snippets hashId "cache" "edf" [fileBMixed] false initState).1 = Except.ok [] ∧
    (get_all_snippets hashId "cache" "edf" [fileBMixed] false initState).2.decodeCount = 0 := by
  refine ⟨by with_unfolding_all rfl, by with_unfolding_all rfl,
    by with_unfolding_all rfl, by with_unfolding_all rfl⟩

/-- Witness for the amended C7 on a directory holding a.edf and A.EDF
once each: both are enumerated, each is decoded exactly once, and the
aggregate is their two snippet lists concatenated in enumeration
order. -/
theorem c7_witness :
    (∀ f, f ∈ edfGlobFiles [fileA, fileAUpper] ↔
      f ∈ [fileA, fileAUpper] ∧
        (strEndsWith f.nm ".edf" = true ∨ strEndsWith f.nm ".EDF" = true)) ∧
    (get_all_snippets hashId "cache" "edf" [fileA, fileAUpper] false initState).1 =
      Except.ok ((edfGlobFiles [fileA, fileAUpper]).flatMap fun f =>
        _extract_snippets_from_edf f.hdr f.bytes f.stem f.nm) ∧
    (get_all_snippets hashId "cache" "edf" [fileA, fileAUpper] false initState).2.decodeCount =
      (edfGlobFiles [fileA, fileAUpper]).length ∧
    (get_all_snippets hashId "cache" "edf" [fileA, fileAUpper] false initState).2.memoCache =
      some ((edfGlobFiles [fileA, fileAUpper]).flatMap fun f =>
        _extract_snippets_from_edf f.hdr f.bytes f.stem f.nm) ∧
    get_all_snippets hashId "cache" "edf" [fileA, fileAUpper] false
        (get_all_snippets hashId "cache" "edf" [fileA, fileAUpper] false initState).2 =
      ((get_all_snippets hashId "cache" "edf" [fileA, fileAUpper] false initState).1,
        (get_all_snippets hashId "cache" "edf" [fileA, fileAUpper] false initState).2) :=
  c7_directory_aggregation hashId "cache" "edf" [fileA, fileAUpper] (by decide)
